import Mathlib

/-!
Verification development for the DAX governance stage-runner core:
`StageManager` (registration and Kahn-style topological execution plan),
`GovernanceEngine.run` (sequential stage execution with skip propagation),
and `MetricsCollector` (counters and timing series with snapshots).

JavaScript `Map` objects are embedded as insertion-ordered association
lists (`Map.set` replaces in place, otherwise appends; iteration follows
insertion order).  JavaScript numbers are embedded as `ℚ` for metric
values and durations and as `Int` for in-degrees (which the source can
drive below zero).  A unit of work is a function from the stage context
to `Except String V`: a thrown error is an `Except.error` carrying the
message.  Wall-clock and monotonic clocks are abstract streams indexed
by the number of calls made so far.
-/

namespace DAX

/-- Lookup in an insertion-ordered association list (JS `Map.get`). -/
def mapGet {β : Type _} : List (String × β) → String → Option β
  | [], _ => none
  | (k, v) :: rest, key => if k = key then some v else mapGet rest key

/-- JS `Map.get(k) ?? d`. -/
def mapGetD {β : Type _} (m : List (String × β)) (key : String) (d : β) : β :=
  (mapGet m key).getD d

/-- JS `Map.has`. -/
def mapHas {β : Type _} (m : List (String × β)) (key : String) : Bool :=
  (mapGet m key).isSome

/-- JS `Map.set`: replaces the value in place when the key is present,
otherwise appends the binding, preserving insertion order. -/
def mapSet {β : Type _} : List (String × β) → String → β → List (String × β)
  | [], key, v => [(key, v)]
  | (k, w) :: rest, key, v =>
      if k = key then (key, v) :: rest else (k, w) :: mapSet rest key v

/-- The `StageStatus` from `types.ts`. -/
inductive StageStatus
  | success
  | failed
  | skipped
deriving DecidableEq, Repr

/-- The `StageResult` from `types.ts`.  Timestamps are abstract wall-clock
values produced by `nowIso` calls; durations are rationals. -/
structure StageResult (V : Type) where
  stageId : String
  status : StageStatus
  output : Option V
  startedAt : Nat
  finishedAt : Nat
  durationMs : ℚ
  errors : List String
  skippedReason : Option String
deriving DecidableEq, Repr

/-- The `StageContext` from `types.ts`: the original input, the mapping of
prior stage results by id, and the optional metadata record. -/
structure StageContext (V : Type) where
  input : V
  results : List (String × StageResult V)
  metadata : Option (List (String × V))

/-- The `GovernanceStage` from `types.ts`: id, optional dependency ids, and
the unit of work. -/
structure GovernanceStage (V : Type) where
  id : String
  dependencies : List String
  run : StageContext V → Except String V

/-- The `StageManager`: owns the id → stage map (insertion ordered). -/
structure StageManager (V : Type) where
  stages : List (String × GovernanceStage V)

/-- The `StageManager.addStage`.  The source throws on a duplicate id and
mutates the registry otherwise; the pair returns the exception outcome
together with the registry state after the call. -/
def StageManager.addStage {V : Type} (sm : StageManager V) (stage : GovernanceStage V) :
    Except String Unit × StageManager V :=
  if mapHas sm.stages stage.id then
    (Except.error ("Stage already registered: " ++ stage.id), sm)
  else
    (Except.ok (), ⟨mapSet sm.stages stage.id stage⟩)

/-- The `StageManager.getStage`. -/
def StageManager.getStage {V : Type} (sm : StageManager V) (id : String) :
    Option (GovernanceStage V) :=
  mapGet sm.stages id

/-- The `StageManager` constructor: `initialStages.forEach(addStage)`,
propagating the duplicate-id exception. -/
def StageManager.ofList {V : Type} (initialStages : List (GovernanceStage V)) :
    Except String (StageManager V) :=
  initialStages.foldlM
    (fun sm stage =>
      match sm.addStage stage with
      | (Except.ok _, sm) => Except.ok sm
      | (Except.error e, _) => Except.error e)
    (⟨[]⟩ : StageManager V)

/-- One dependency of the first `for` loop of `getExecutionPlan`: check
registration (throwing the missing-stage error otherwise), add the edge
into the set of the dependency when the dependency already has a graph
entry (`graph.get(dependency)?.add(id)` is a silent no-op otherwise),
and increment the in-degree of the stage `id`. -/
def depStep {V : Type} (stages : List (String × GovernanceStage V)) (id : String)
    (st : List (String × Int) × List (String × List String)) (dep : String) :
    Except String (List (String × Int) × List (String × List String)) :=
  if mapHas stages dep then
    let graph :=
      match mapGet st.2 dep with
      | some s => mapSet st.2 dep (if id ∈ s then s else s ++ [id])
      | none => st.2
    Except.ok (mapSet st.1 id (mapGetD st.1 id 0 + 1), graph)
  else
    Except.error ("Stage " ++ id ++ " depends on missing stage " ++ dep)

/-- The first `for` loop of `getExecutionPlan`, processing one stage:
reset its in-degree and graph entry, then process its declared
dependencies in order. -/
def buildStep {V : Type} (stages : List (String × GovernanceStage V))
    (st : List (String × Int) × List (String × List String))
    (entry : String × GovernanceStage V) :
    Except String (List (String × Int) × List (String × List String)) :=
  let inDeg := mapSet st.1 entry.1 0
  let graph := mapSet st.2 entry.1 []
  entry.2.dependencies.foldlM (depStep stages entry.1) (inDeg, graph)

/-- Decrementing one dependent inside the `while` loop of
`getExecutionPlan`: record the new in-degree and enqueue the dependent
when it reaches exactly zero. -/
def kahnStep (acc : List (String × Int) × List String) (dependent : String) :
    List (String × Int) × List String :=
  let nextDegree := mapGetD acc.1 dependent 0 - 1
  (mapSet acc.1 dependent nextDegree,
   if nextDegree = 0 then acc.2 ++ [dependent] else acc.2)

/-- The `while` loop of `getExecutionPlan` (Kahn): pop the queue head
(`if (!id) break` makes an empty-string id end the loop), append the
stage to the order, and decrement each dependent, enqueuing those that
reach zero.  Each stage is enqueued at most once (an enqueue needs the
in-degree to hit exactly zero, and in-degrees only decrease), so the
loop runs at most `stages.length` iterations; the fuel passed by
`getExecutionPlan` covers every iteration the source performs. -/
def kahnLoop {V : Type} (stages : List (String × GovernanceStage V))
    (graph : List (String × List String)) :
    Nat → List String → List (String × Int) → List (GovernanceStage V) →
    List (GovernanceStage V)
  | 0, _, _, ordered => ordered
  | _ + 1, [], _, ordered => ordered
  | fuel + 1, id :: rest, inDeg, ordered =>
      if id = "" then ordered
      else
        let ordered :=
          match mapGet stages id with
          | some stage => ordered ++ [stage]
          | none => ordered
        let step := (mapGetD graph id []).foldl kahnStep (inDeg, rest)
        kahnLoop stages graph fuel step.2 step.1 ordered

/-- The `StageManager.getExecutionPlan`. -/
def StageManager.getExecutionPlan {V : Type} (sm : StageManager V) :
    Except String (List (GovernanceStage V)) :=
  match sm.stages.foldlM (buildStep sm.stages) ([], []) with
  | Except.error e => Except.error e
  | Except.ok built =>
      let queue := (built.1.filter (fun p => p.2 = 0)).map Prod.fst
      let ordered := kahnLoop sm.stages built.2 sm.stages.length queue built.1 []
      if ordered.length ≠ sm.stages.length then
        Except.error "Stage dependency cycle detected"
      else
        Except.ok ordered

/-- The `Metric` from `MetricsCollector.ts`. -/
inductive Metric
  | timing (values : List ℚ)
  | counter (value : ℚ)
deriving DecidableEq, Repr

/-- The `MetricsCollector`: the operation-name → metric map. -/
structure MetricsCollector where
  metrics : List (String × Metric)
deriving DecidableEq, Repr

/-- The `MetricsCollector.recordTiming`: append to an existing timing series,
otherwise (also when the key currently holds a counter) replace the
binding with a fresh single-sample timing series. -/
def MetricsCollector.recordTiming (mc : MetricsCollector) (operation : String)
    (durationMs : ℚ) : MetricsCollector :=
  match mapGet mc.metrics operation with
  | some (Metric.timing values) =>
      ⟨mapSet mc.metrics operation (Metric.timing (values ++ [durationMs]))⟩
  | _ => ⟨mapSet mc.metrics operation (Metric.timing [durationMs])⟩

/-- The `MetricsCollector.recordCounter` (default increment 1 is written
explicitly at call sites): add to an existing counter, otherwise (also
when the key currently holds a timing series) replace the binding with a
fresh counter initialised to the increment. -/
def MetricsCollector.recordCounter (mc : MetricsCollector) (operation : String)
    (increment : ℚ) : MetricsCollector :=
  match mapGet mc.metrics operation with
  | some (Metric.counter value) =>
      ⟨mapSet mc.metrics operation (Metric.counter (value + increment))⟩
  | _ => ⟨mapSet mc.metrics operation (Metric.counter increment)⟩

/-- The plain-object shape produced by `getSnapshot`. -/
inductive SnapshotEntry
  | counter (value : ℚ)
  | timing (count : Nat) (averageMs : ℚ) (values : List ℚ)
deriving DecidableEq, Repr

/-- The `MetricsCollector.getSnapshot`. -/
def MetricsCollector.getSnapshot (mc : MetricsCollector) :
    List (String × SnapshotEntry) :=
  mc.metrics.map
    (fun entry =>
      match entry.2 with
      | Metric.counter value => (entry.1, SnapshotEntry.counter value)
      | Metric.timing values =>
          let total := values.foldl (fun sum value => sum + value) 0
          let avg := if values.length ≠ 0 then total / (values.length : ℚ) else 0
          (entry.1, SnapshotEntry.timing values.length avg values))

/-- The `GovernanceRunResult` from `types.ts`. -/
structure GovernanceRunResult (V : Type) where
  runId : String
  startedAt : Nat
  finishedAt : Nat
  durationMs : Int
  stages : List (StageResult V)
  success : Bool
deriving DecidableEq, Repr

/-- The `GovernanceEngine` instance state: the stage manager, the optional
metrics collector, the run history, and the history-retention flag. -/
structure GovernanceEngine (V : Type) where
  stageManager : StageManager V
  metricsCollector : Option MetricsCollector
  history : List (GovernanceRunResult V)
  storeHistory : Bool

/-- The two clock sources of `GovernanceEngine.ts`: `nowIso` (wall clock,
abstract `Nat` timestamps) and `performance.now` (rational milliseconds),
each indexed by how many calls were made before. -/
structure Clock where
  wall : Nat → Nat
  perf : Nat → ℚ

/-- The mutable state threaded through the `for` loop of `run`: the
results record, the ordered stage results, the metrics collector, the
log of stage ids whose unit of work was invoked, and the two clock
cursors. -/
structure RunState (V : Type) where
  results : List (String × StageResult V)
  stageResults : List (StageResult V)
  metrics : Option MetricsCollector
  invoked : List String
  wallTick : Nat
  perfTick : Nat

/-- The body of the `for (const stage of executionPlan)` loop of `run`:
check the recorded statuses of the declared dependencies; on any
non-success record a skipped result (duration 0, fixed reason) and a
`stages.skipped` counter without invoking the work; otherwise invoke the
unit of work and record a success or failed result with the matching
counter and per-stage timing sample. -/
def execStage {V : Type} (clk : Clock) (input : V)
    (metadata : Option (List (String × V))) (s : RunState V)
    (stage : GovernanceStage V) : RunState V :=
  let dependencyStatuses :=
    stage.dependencies.map (fun depId => (mapGet s.results depId).map (·.status))
  if dependencyStatuses.any (fun status => status ≠ some StageStatus.success) then
    let startedSkip := clk.wall s.wallTick
    let finishedSkip := clk.wall (s.wallTick + 1)
    let skippedResult : StageResult V :=
      { stageId := stage.id
        status := StageStatus.skipped
        output := none
        startedAt := startedSkip
        finishedAt := finishedSkip
        durationMs := 0
        errors := []
        skippedReason := some "Dependency failed or skipped" }
    { results := mapSet s.results stage.id skippedResult
      stageResults := s.stageResults ++ [skippedResult]
      metrics := s.metrics.map (fun mc => mc.recordCounter "stages.skipped" 1)
      invoked := s.invoked
      wallTick := s.wallTick + 2
      perfTick := s.perfTick }
  else
    let stageStarted := clk.wall s.wallTick
    let startedMs := clk.perf s.perfTick
    let context : StageContext V :=
      { input := input, results := s.results, metadata := metadata }
    match stage.run context with
    | Except.ok output =>
        let durationMs := clk.perf (s.perfTick + 1) - startedMs
        let stageFinished := clk.wall (s.wallTick + 1)
        let stageResult : StageResult V :=
          { stageId := stage.id
            status := StageStatus.success
            output := some output
            startedAt := stageStarted
            finishedAt := stageFinished
            durationMs := durationMs
            errors := []
            skippedReason := none }
        { results := mapSet s.results stage.id stageResult
          stageResults := s.stageResults ++ [stageResult]
          metrics :=
            (s.metrics.map (fun mc => mc.recordCounter "stages.success" 1)).map
              (fun mc =>
                mc.recordTiming ("stage." ++ stage.id ++ ".duration") durationMs)
          invoked := s.invoked ++ [stage.id]
          wallTick := s.wallTick + 2
          perfTick := s.perfTick + 2 }
    | Except.error e =>
        let durationMs := clk.perf (s.perfTick + 1) - startedMs
        let stageFinished := clk.wall (s.wallTick + 1)
        let stageResult : StageResult V :=
          { stageId := stage.id
            status := StageStatus.failed
            output := none
            startedAt := stageStarted
            finishedAt := stageFinished
            durationMs := durationMs
            errors := [e]
            skippedReason := none }
        { results := mapSet s.results stage.id stageResult
          stageResults := s.stageResults ++ [stageResult]
          metrics :=
            (s.metrics.map (fun mc => mc.recordCounter "stages.failed" 1)).map
              (fun mc =>
                mc.recordTiming ("stage." ++ stage.id ++ ".duration") durationMs)
          invoked := s.invoked ++ [stage.id]
          wallTick := s.wallTick + 2
          perfTick := s.perfTick + 2 }

/-- The `GovernanceEngine.run`: compute the start timestamp, obtain the
execution plan (propagating its error with the engine state untouched),
fold the stage loop over the plan, aggregate the run result, and append
it to the history when retention is on.  Returns the exception outcome,
the engine state after the call, and the log of invoked stage ids.
`uuid` stands for the `crypto.randomUUID()` value. -/
def GovernanceEngine.run {V : Type} (clk : Clock) (uuid : String)
    (e : GovernanceEngine V) (input : V)
    (metadata : Option (List (String × V))) :
    Except String (GovernanceRunResult V) × GovernanceEngine V × List String :=
  let startedAt := clk.wall 0
  match e.stageManager.getExecutionPlan with
  | Except.error msg => (Except.error msg, e, [])
  | Except.ok executionPlan =>
      let s0 : RunState V :=
        { results := []
          stageResults := []
          metrics := e.metricsCollector
          invoked := []
          wallTick := 1
          perfTick := 0 }
      let s := executionPlan.foldl (execStage clk input metadata) s0
      let finishedAt := clk.wall s.wallTick
      let durationMs : Int := (finishedAt : Int) - (startedAt : Int)
      let success := s.stageResults.all (fun r => r.status = StageStatus.success)
      let runResult : GovernanceRunResult V :=
        { runId := uuid
          startedAt := startedAt
          finishedAt := finishedAt
          durationMs := durationMs
          stages := s.stageResults
          success := success }
      let e' : GovernanceEngine V :=
        { stageManager := e.stageManager
          metricsCollector := s.metrics
          history := if e.storeHistory then e.history ++ [runResult] else e.history
          storeHistory := e.storeHistory }
      (Except.ok runResult, e', s.invoked)

/-- The `GovernanceEngine.registerStage` forwards to the stage manager. -/
def GovernanceEngine.registerStage {V : Type} (e : GovernanceEngine V)
    (stage : GovernanceStage V) : Except String Unit × GovernanceEngine V :=
  let r := e.stageManager.addStage stage
  (r.1, { e with stageManager := r.2 })

/-!
`getHistory` returns `[...this.history]`, a fresh array.  To state the
defensive-copy property we model JS arrays as cells of a heap: a heap is
a list of cells, a reference is an index, allocation appends a cell, and
mutating a cell through a reference is `heapWrite`.  The engine holds a
reference to its history cell; `getHistory` allocates a fresh cell whose
initial contents copy the history cell and returns the fresh reference.
-/

/-- A heap of JS array cells holding run results. -/
abbrev Heap (V : Type) : Type := List (List (GovernanceRunResult V))

/-- Dereference a cell (a dangling reference reads as the empty array). -/
def heapRead {V : Type} (h : Heap V) (r : Nat) : List (GovernanceRunResult V) :=
  h.getD r []

/-- Mutate the cell behind a reference (covers appending, removing and
replacing elements: the new contents are arbitrary). -/
def heapWrite {V : Type} (h : Heap V) (r : Nat) (v : List (GovernanceRunResult V)) :
    Heap V :=
  h.set r v

/-- The `GovernanceEngine.getHistory` in the heap model: allocate a fresh
cell holding a copy of the history cell and return its reference. -/
def getHistory {V : Type} (h : Heap V) (historyRef : Nat) : Heap V × Nat :=
  (h ++ [heapRead h historyRef], h.length)

/-! ### Concrete fixtures used by the claims

The stage unit of work is irrelevant to plan computation; `Unit` outputs
keep the examples small.
-/

/-- Stage `a`, no dependencies. -/
def stageA : GovernanceStage Unit :=
  { id := "a", dependencies := [], run := fun _ => Except.ok () }

/-- Stage `b`, depends on `a`. -/
def stageB : GovernanceStage Unit :=
  { id := "b", dependencies := ["a"], run := fun _ => Except.ok () }

/-- Stage `c`, depends on `b`. -/
def stageC : GovernanceStage Unit :=
  { id := "c", dependencies := ["b"], run := fun _ => Except.ok () }

/-- A registry where `b` (depending on `a`) is registered before `a`:
the dependency graph `a → b` is acyclic and both ids are registered. -/
def smLate : StageManager Unit := ⟨[("b", stageB), ("a", stageA)]⟩

/-- The registry of the spec example and of the repository test:
`[{id:"c", deps:["b"]}, {id:"a"}, {id:"b", deps:["a"]}]`. -/
def smSpecOrder : StageManager Unit := ⟨[("c", stageC), ("a", stageA), ("b", stageB)]⟩

/-- Stage `fail` whose unit of work always throws `boom`. -/
def stageFail : GovernanceStage Unit :=
  { id := "fail", dependencies := [], run := fun _ => Except.error "boom" }

/-- Stage `skip`, depends on `fail`. -/
def stageSkip : GovernanceStage Unit :=
  { id := "skip", dependencies := ["fail"], run := fun _ => Except.ok () }

/-- The engine of the spec scenario: `fail` throws, `skip` depends on it. -/
def engineFailSkip : GovernanceEngine Unit :=
  { stageManager := ⟨[("fail", stageFail), ("skip", stageSkip)]⟩
    metricsCollector := some ⟨[]⟩
    history := []
    storeHistory := true }

/-- Stages `x` and `y` forming a genuine dependency cycle. -/
def stageX : GovernanceStage Unit :=
  { id := "x", dependencies := ["y"], run := fun _ => Except.ok () }

/-- Second half of the `x ↔ y` cycle. -/
def stageY : GovernanceStage Unit :=
  { id := "y", dependencies := ["x"], run := fun _ => Except.ok () }

/-- An engine whose registry contains the `x ↔ y` cycle. -/
def engineCycle : GovernanceEngine Unit :=
  { stageManager := ⟨[("x", stageX), ("y", stageY)]⟩
    metricsCollector := none
    history := []
    storeHistory := true }

/-- A constant clock: every wall reading is 0 and every monotonic reading 0. -/
def clock0 : Clock := { wall := fun _ => 0, perf := fun _ => 0 }

/-- A stage with the duplicated dependency list `["a", "a"]`. -/
def stageBdup : GovernanceStage Unit :=
  { id := "b", dependencies := ["a", "a"], run := fun _ => Except.ok () }


/-! ### Association-list (JS `Map`) lemmas -/

theorem mapGet_mapSet_self {β : Type _} (m : List (String × β)) (k : String) (v : β) :
    mapGet (mapSet m k v) k = some v := by
  induction m with
  | nil => simp [mapGet, mapSet]
  | cons p rest ih =>
      by_cases h : p.1 = k
      · simp [mapGet, mapSet, h]
      · simp [mapGet, mapSet, h, ih]

theorem mapGet_mapSet_ne {β : Type _} (m : List (String × β)) (k k' : String) (v : β)
    (h : k' ≠ k) : mapGet (mapSet m k v) k' = mapGet m k' := by
  induction m with
  | nil => simp [mapGet, mapSet, h, Ne.symm h]
  | cons p rest ih =>
      obtain ⟨pk, pv⟩ := p
      by_cases hp : pk = k
      · subst hp
        simp [mapGet, mapSet, h, Ne.symm h]
      · by_cases hp' : pk = k'
        · simp [mapGet, mapSet, hp, hp', h]
        · simp [mapGet, mapSet, hp, hp', ih]

theorem mapGet_mem {β : Type _} (m : List (String × β)) (k : String) (v : β)
    (h : mapGet m k = some v) : (k, v) ∈ m := by
  induction m with
  | nil => simp [mapGet] at h
  | cons p rest ih =>
      obtain ⟨pk, pv⟩ := p
      by_cases hp : pk = k
      · subst hp
        have hv : pv = v := by simpa [mapGet] using h
        subst hv
        exact List.mem_cons_self _ _
      · simp [mapGet, hp] at h
        exact List.mem_cons_of_mem _ (ih h)

/-! ### Claim theorems -/

/-- C1: the claim states that whenever every declared dependency is
registered and the dependency graph is acyclic, `getExecutionPlan()`
returns a dependency-respecting order of all stages.  The code violates
this: in `smLate` stage `b` (depending on `a`) is registered before `a`,
every dependency is registered and the graph `a → b` is acyclic, yet
`graph.get("a")` is still `undefined` when `b` is processed, so the edge
is silently dropped by optional chaining, `b` keeps in-degree 1 forever,
and the sort throws the cycle error instead of returning `[a, b]`.  The
repository test expects exactly the order-independent behaviour the
claim describes, so this is a code bug. -/
theorem C1_acyclic_registry_plan_throws :
    smLate.stages.all (fun p => p.2.dependencies.all (fun d => mapHas smLate.stages d)) = true
    ∧ smLate.getExecutionPlan = Except.error "Stage dependency cycle detected" :=
  ⟨by decide, rfl⟩

/-- C6: the claim includes that the registry
`[{id:"c", deps:["b"]}, {id:"a"}, {id:"b", deps:["a"]}]` yields the plan
`["a","b","c"]` (as the repository test also asserts).  The code instead
throws the cycle error: when `c` is processed first, `graph.get("b")` is
`undefined`, so the edge `b → c` is dropped while the in-degree of `c`
is still incremented, and `c` can never be dequeued.  The determinism
part of the claim (same registry, same result) holds trivially of the
pure plan function, but the stated plan is wrong, so this is a code
bug. -/
theorem C6_spec_order_example_throws :
    smSpecOrder.getExecutionPlan = Except.error "Stage dependency cycle detected"
    ∧ smSpecOrder.getExecutionPlan = smSpecOrder.getExecutionPlan :=
  ⟨rfl, rfl⟩

/-- C7: `recordCounter("runs")` then `recordCounter("runs", 2)` snapshots
to `{runs: {type:"counter", value:3}}`, and `recordTiming("x", 10)` then
`recordTiming("x", 20)` snapshots to
`{x: {type:"timing", count:2, averageMs:15, values:[10,20]}}` — the
average is the arithmetic mean and the sample list preserves recording
order. -/
theorem C7_metrics_snapshot_examples :
    (((⟨[]⟩ : MetricsCollector).recordCounter "runs" 1).recordCounter "runs" 2).getSnapshot
      = [("runs", SnapshotEntry.counter 3)]
    ∧ (((⟨[]⟩ : MetricsCollector).recordTiming "x" 10).recordTiming "x" 20).getSnapshot
      = [("x", SnapshotEntry.timing 2 15 [10, 20])] := by
  constructor
  · norm_num [MetricsCollector.recordCounter, MetricsCollector.getSnapshot, mapGet, mapSet]
  · norm_num [MetricsCollector.recordTiming, MetricsCollector.getSnapshot, mapGet, mapSet]
    decide

/-- C8: adding a stage whose id is already registered returns the
duplicate-stage error and leaves the registry unchanged: the second
stage is not added and `getStage` still returns the originally
registered stage. -/
theorem C8_duplicate_addStage_rejected {V : Type} (sm : StageManager V) (x : String)
    (st0 st1 : GovernanceStage V) (h : sm.getStage x = some st0) (hid : st1.id = x) :
    (sm.addStage st1).1 = Except.error ("Stage already registered: " ++ x)
    ∧ (sm.addStage st1).2 = sm
    ∧ (sm.addStage st1).2.getStage x = some st0 := by
  have hh : mapHas sm.stages st1.id = true := by
    unfold StageManager.getStage at h
    simp [mapHas, hid, h]
  rw [hid] at hh
  refine ⟨?_, ?_, ?_⟩ <;> simp [StageManager.addStage, hh, hid, h]

/-- Witness for C8 at a concrete registry that already holds `a`. -/
theorem C8_witness :
    ((⟨[("a", stageA)]⟩ : StageManager Unit).addStage stageA).1
      = Except.error ("Stage already registered: " ++ "a")
    ∧ ((⟨[("a", stageA)]⟩ : StageManager Unit).addStage stageA).2
      = (⟨[("a", stageA)]⟩ : StageManager Unit)
    ∧ ((⟨[("a", stageA)]⟩ : StageManager Unit).addStage stageA).2.getStage "a" = some stageA :=
  C8_duplicate_addStage_rejected ⟨[("a", stageA)]⟩ "a" stageA stageA rfl rfl

/-- C5 counterexample: the claim says a key, once created with one
shape, keeps that shape under EVERY later sequence of recordings.  On
the code, recording a timing sample against a key holding a counter
replaces the binding with a fresh single-sample timing series: the shape
changes and the accumulated counter value is discarded. -/
theorem C5_counterexample :
    mapGet (((⟨[]⟩ : MetricsCollector).recordCounter "k" 1).metrics) "k"
      = some (Metric.counter 1)
    ∧ mapGet ((((⟨[]⟩ : MetricsCollector).recordCounter "k" 1).recordTiming "k" 5).metrics) "k"
      = some (Metric.timing [5])
    ∧ Metric.timing [5] ≠ Metric.counter 1 := by
  refine ⟨?_, ?_, ?_⟩ <;>
    simp [MetricsCollector.recordCounter, MetricsCollector.recordTiming, mapGet, mapSet]

/-- C5 amended: a key keeps its shape and its accumulated data as long
as every later recording of that key uses the matching method; a
mismatched recording replaces the metric with a fresh one of the other
shape, discarding the accumulated data. -/
theorem C5_amended_shape_rules (mc : MetricsCollector) (k : String) :
    (∀ v i, mapGet mc.metrics k = some (Metric.counter v) →
        mapGet (mc.recordCounter k i).metrics k = some (Metric.counter (v + i)))
    ∧ (∀ vs d, mapGet mc.metrics k = some (Metric.timing vs) →
        mapGet (mc.recordTiming k d).metrics k = some (Metric.timing (vs ++ [d])))
    ∧ (∀ v d, mapGet mc.metrics k = some (Metric.counter v) →
        mapGet (mc.recordTiming k d).metrics k = some (Metric.timing [d]))
    ∧ (∀ vs i, mapGet mc.metrics k = some (Metric.timing vs) →
        mapGet (mc.recordCounter k i).metrics k = some (Metric.counter i)) := by
  refine ⟨?_, ?_, ?_, ?_⟩ <;> intro a b h <;>
    simp [MetricsCollector.recordCounter, MetricsCollector.recordTiming, h, mapGet_mapSet_self]

/-- Witness for the amended C5 at concrete one-entry collectors. -/
theorem C5_witness :
    mapGet ((⟨[("k", Metric.counter 2)]⟩ : MetricsCollector).recordCounter "k" 3).metrics "k"
      = some (Metric.counter (2 + 3))
    ∧ mapGet ((⟨[("k", Metric.timing [1])]⟩ : MetricsCollector).recordTiming "k" 4).metrics "k"
      = some (Metric.timing ([1] ++ [4]))
    ∧ mapGet ((⟨[("k", Metric.counter 2)]⟩ : MetricsCollector).recordTiming "k" 4).metrics "k"
      = some (Metric.timing [4])
    ∧ mapGet ((⟨[("k", Metric.timing [1])]⟩ : MetricsCollector).recordCounter "k" 3).metrics "k"
      = some (Metric.counter 3) :=
  ⟨(C5_amended_shape_rules ⟨[("k", Metric.counter 2)]⟩ "k").1 2 3 rfl,
   (C5_amended_shape_rules ⟨[("k", Metric.timing [1])]⟩ "k").2.1 [1] 4 rfl,
   (C5_amended_shape_rules ⟨[("k", Metric.counter 2)]⟩ "k").2.2.1 2 4 rfl,
   (C5_amended_shape_rules ⟨[("k", Metric.timing [1])]⟩ "k").2.2.2 [1] 3 rfl⟩

/-- C4: when the execution plan cannot be computed, `run` surfaces that
error before any stage work: the returned outcome is the plan error, the
engine state (history, metrics, registry) is exactly the state before
the call, and no unit of work was invoked. -/
theorem C4_plan_error_aborts_run {V : Type} (clk : Clock) (uuid : String)
    (e : GovernanceEngine V) (input : V) (metadata : Option (List (String × V)))
    (msg : String) (h : e.stageManager.getExecutionPlan = Except.error msg) :
    e.run clk uuid input metadata = (Except.error msg, e, []) := by
  simp [GovernanceEngine.run, h]

/-- Witness for C4: a run over the `x ↔ y` cycle throws the cycle error
and leaves the engine untouched. -/
theorem C4_witness :
    engineCycle.run clock0 "run-1" () none
      = (Except.error "Stage dependency cycle detected", engineCycle, []) :=
  C4_plan_error_aborts_run clock0 "run-1" engineCycle () none
    "Stage dependency cycle detected" rfl

/-- C9: `getHistory` returns a fresh copy.  In the heap model the fresh
cell initially holds the history contents, and overwriting the returned
cell with anything (append, removal, replacement) changes neither the
engine-held history cell nor what a later `getHistory` call returns. -/
theorem C9_getHistory_defensive_copy {V : Type} (h : Heap V) (ref : Nat)
    (hr : ref < h.length) (v : List (GovernanceRunResult V)) :
    heapRead (getHistory h ref).1 (getHistory h ref).2 = heapRead h ref
    ∧ heapRead (heapWrite (getHistory h ref).1 (getHistory h ref).2 v) ref = heapRead h ref
    ∧ heapRead (getHistory (heapWrite (getHistory h ref).1 (getHistory h ref).2 v) ref).1
        (getHistory (heapWrite (getHistory h ref).1 (getHistory h ref).2 v) ref).2
      = heapRead h ref := by
  have hfresh : ∀ (h' : Heap V),
      heapRead (getHistory h' ref).1 (getHistory h' ref).2 = heapRead h' ref := by
    intro h'
    simp [getHistory, heapRead, List.getD_eq_getElem?_getD, List.getElem?_concat_length]
  have hwrite :
      heapRead (heapWrite (getHistory h ref).1 (getHistory h ref).2 v) ref = heapRead h ref := by
    simp only [getHistory, heapWrite, heapRead, List.getD_eq_getElem?_getD]
    rw [List.getElem?_set_ne (Ne.symm (Nat.ne_of_lt hr)), List.getElem?_append_left hr]
  refine ⟨hfresh h, hwrite, ?_⟩
  rw [hfresh (heapWrite (getHistory h ref).1 (getHistory h ref).2 v)]
  exact hwrite

/-- Witness for C9 on a one-cell heap holding one retained run. -/
theorem C9_witness :
    heapRead (getHistory ([[]] : Heap Unit) 0).1 (getHistory ([[]] : Heap Unit) 0).2
      = heapRead ([[]] : Heap Unit) 0
    ∧ heapRead (heapWrite (getHistory ([[]] : Heap Unit) 0).1
        (getHistory ([[]] : Heap Unit) 0).2
        [{ runId := "r", startedAt := 0, finishedAt := 0, durationMs := 0,
           stages := [], success := true }]) 0 = heapRead ([[]] : Heap Unit) 0
    ∧ heapRead (getHistory (heapWrite (getHistory ([[]] : Heap Unit) 0).1
          (getHistory ([[]] : Heap Unit) 0).2
          [{ runId := "r", startedAt := 0, finishedAt := 0, durationMs := 0,
             stages := [], success := true }]) 0).1
        (getHistory (heapWrite (getHistory ([[]] : Heap Unit) 0).1
          (getHistory ([[]] : Heap Unit) 0).2
          [{ runId := "r", startedAt := 0, finishedAt := 0, durationMs := 0,
             stages := [], success := true }]) 0).2
      = heapRead ([[]] : Heap Unit) 0 :=
  C9_getHistory_defensive_copy [[]] 0 (by decide)
    [{ runId := "r", startedAt := 0, finishedAt := 0, durationMs := 0,
       stages := [], success := true }]

/-- C2 counterexample: the claim quotes the skip reason as
"dependency failed or skipped", but the code records the capitalised
literal "Dependency failed or skipped".  The spec scenario (stage `fail`
throws, stage `skip` depends on it) shows the recorded reason. -/
theorem C2_counterexample :
    ((engineFailSkip.run clock0 "run-1" () none).1.map
        (fun rr => rr.stages.map (fun r => (r.stageId, r.status, r.skippedReason, r.durationMs))))
      = Except.ok
          [("fail", StageStatus.failed, none, (0 : ℚ)),
           ("skip", StageStatus.skipped, some "Dependency failed or skipped", (0 : ℚ))]
    ∧ ("Dependency failed or skipped" : String) ≠ "dependency failed or skipped" := by
  constructor
  · have hplan : engineFailSkip.stageManager.getExecutionPlan
        = Except.ok [stageFail, stageSkip] := rfl
    simp only [GovernanceEngine.run, hplan]
    norm_num [execStage, stageFail, stageSkip, mapGet, mapSet, mapGetD, clock0, Except.map,
      MetricsCollector.recordCounter, MetricsCollector.recordTiming]
    decide
  · decide

/-- C2 amended: during `run`, for every stage of the execution plan that
declares dependencies, if any recorded dependency status is not
`success` the unit of work is not invoked and the recorded result is
`skipped` with reason "Dependency failed or skipped" (capital D as in
the code), duration 0, and a `stages.skipped` counter increment;
otherwise the unit of work is invoked.  Stated over the loop body
`execStage`, which `run` folds over the plan. -/
theorem C2_skip_on_unsuccessful_dependency {V : Type} (clk : Clock) (input : V)
    (metadata : Option (List (String × V))) (s : RunState V)
    (stage : GovernanceStage V) (mc : MetricsCollector)
    (hm : s.metrics = some mc) (_hdeps : stage.dependencies ≠ []) :
    ((stage.dependencies.map (fun depId => (mapGet s.results depId).map (·.status))).any
        (fun status => status ≠ some StageStatus.success) = true →
      (execStage clk input metadata s stage).invoked = s.invoked
      ∧ (execStage clk input metadata s stage).stageResults
          = s.stageResults ++
            [{ stageId := stage.id, status := StageStatus.skipped, output := none,
               startedAt := clk.wall s.wallTick, finishedAt := clk.wall (s.wallTick + 1),
               durationMs := 0, errors := [],
               skippedReason := some "Dependency failed or skipped" }]
      ∧ (execStage clk input metadata s stage).metrics
          = some (mc.recordCounter "stages.skipped" 1))
    ∧ ((stage.dependencies.map (fun depId => (mapGet s.results depId).map (·.status))).any
        (fun status => status ≠ some StageStatus.success) = false →
      (execStage clk input metadata s stage).invoked = s.invoked ++ [stage.id]) := by
  constructor
  · intro hcond
    refine ⟨?_, ?_, ?_⟩ <;> (simp only [execStage, hcond]; simp [hm])
  · intro hcond
    cases hrun : stage.run { input := input, results := s.results, metadata := metadata } <;>
      (simp only [execStage, hcond]; simp [hrun])

/-- Witness for the amended C2: the `skip` stage with its dependency
`fail` already recorded as failed. -/
theorem C2_witness :
    (execStage clock0 () none
        { results := [("fail",
            { stageId := "fail", status := StageStatus.failed, output := none,
              startedAt := 0, finishedAt := 0, durationMs := 0, errors := ["boom"],
              skippedReason := none })]
          stageResults := []
          metrics := some ⟨[]⟩
          invoked := []
          wallTick := 0
          perfTick := 0 } stageSkip).invoked = []
    ∧ (execStage clock0 () none
        { results := [("fail",
            { stageId := "fail", status := StageStatus.failed, output := none,
              startedAt := 0, finishedAt := 0, durationMs := 0, errors := ["boom"],
              skippedReason := none })]
          stageResults := []
          metrics := some ⟨[]⟩
          invoked := []
          wallTick := 0
          perfTick := 0 } stageSkip).stageResults
        = [] ++
          [{ stageId := stageSkip.id, status := StageStatus.skipped, output := none,
             startedAt := clock0.wall 0, finishedAt := clock0.wall (0 + 1),
             durationMs := 0, errors := [],
             skippedReason := some "Dependency failed or skipped" }]
    ∧ (execStage clock0 () none
        { results := [("fail",
            { stageId := "fail", status := StageStatus.failed, output := none,
              startedAt := 0, finishedAt := 0, durationMs := 0, errors := ["boom"],
              skippedReason := none })]
          stageResults := []
          metrics := some ⟨[]⟩
          invoked := []
          wallTick := 0
          perfTick := 0 } stageSkip).metrics
        = some ((⟨[]⟩ : MetricsCollector).recordCounter "stages.skipped" 1) :=
  (C2_skip_on_unsuccessful_dependency clock0 () none _ stageSkip ⟨[]⟩ rfl
      (by simp [stageSkip])).1 (by simp [stageSkip, mapGet])

/-! ### Lemmas about the run loop (for C3) -/

theorem execStage_stageResults_length {V : Type} (clk : Clock) (input : V)
    (metadata : Option (List (String × V))) (s : RunState V) (stage : GovernanceStage V) :
    (execStage clk input metadata s stage).stageResults.length
      = s.stageResults.length + 1 := by
  cases hcond : (stage.dependencies.map
      (fun depId => (mapGet s.results depId).map (·.status))).any
      (fun status => status ≠ some StageStatus.success) with
  | true => simp only [execStage, hcond]; simp
  | false =>
      cases hrun : stage.run { input := input, results := s.results, metadata := metadata } with
      | ok output => simp only [execStage, hcond, hrun]; simp
      | error e => simp only [execStage, hcond, hrun]; simp

theorem execStage_stageResults_mem {V : Type} (clk : Clock) (input : V)
    (metadata : Option (List (String × V))) (s : RunState V) (stage : GovernanceStage V)
    (r : StageResult V) (hr : r ∈ s.stageResults) :
    r ∈ (execStage clk input metadata s stage).stageResults := by
  cases hcond : (stage.dependencies.map
      (fun depId => (mapGet s.results depId).map (·.status))).any
      (fun status => status ≠ some StageStatus.success) with
  | true => simp only [execStage, hcond]; simp [hr]
  | false =>
      cases hrun : stage.run { input := input, results := s.results, metadata := metadata } with
      | ok output => simp only [execStage, hcond, hrun]; simp [hr]
      | error e => simp only [execStage, hcond, hrun]; simp [hr]

theorem execStage_invoked_cases {V : Type} (clk : Clock) (input : V)
    (metadata : Option (List (String × V))) (s : RunState V) (stage : GovernanceStage V) :
    (execStage clk input metadata s stage).invoked = s.invoked
    ∨ (execStage clk input metadata s stage).invoked = s.invoked ++ [stage.id] := by
  cases hcond : (stage.dependencies.map
      (fun depId => (mapGet s.results depId).map (·.status))).any
      (fun status => status ≠ some StageStatus.success) with
  | true =>
      left
      simp only [execStage, hcond]
      simp
  | false =>
      right
      cases hrun : stage.run { input := input, results := s.results, metadata := metadata } with
      | ok output => simp only [execStage, hcond, hrun]; simp
      | error e => simp only [execStage, hcond, hrun]; simp

theorem execStage_const_error {V : Type} (clk : Clock) (input : V)
    (metadata : Option (List (String × V))) (s : RunState V) (stage : GovernanceStage V)
    (msg : String) (hw : ∀ ctx, stage.run ctx = Except.error msg)
    (hne : (execStage clk input metadata s stage).invoked ≠ s.invoked) :
    ∃ r, (execStage clk input metadata s stage).stageResults = s.stageResults ++ [r]
      ∧ r.stageId = stage.id ∧ r.status = StageStatus.failed ∧ r.errors = [msg] := by
  cases hcond : (stage.dependencies.map
      (fun depId => (mapGet s.results depId).map (·.status))).any
      (fun status => status ≠ some StageStatus.success) with
  | true =>
      exfalso
      apply hne
      simp only [execStage, hcond]
      simp
  | false =>
      have hres : (execStage clk input metadata s stage).stageResults
          = s.stageResults ++
            [{ stageId := stage.id, status := StageStatus.failed, output := none,
               startedAt := clk.wall s.wallTick, finishedAt := clk.wall (s.wallTick + 1),
               durationMs := clk.perf (s.perfTick + 1) - clk.perf s.perfTick,
               errors := [msg], skippedReason := none }] := by
        simp only [execStage, hcond, hw]
        simp
      exact ⟨_, hres, rfl, rfl, rfl⟩

theorem foldl_execStage_length {V : Type} (clk : Clock) (input : V)
    (metadata : Option (List (String × V))) (P : List (GovernanceStage V)) :
    ∀ s : RunState V,
      (P.foldl (execStage clk input metadata) s).stageResults.length
        = s.stageResults.length + P.length := by
  induction P with
  | nil => intro s; simp
  | cons stage P ih =>
      intro s
      rw [List.foldl_cons, ih, execStage_stageResults_length]
      simp
      omega

theorem foldl_execStage_results_mono {V : Type} (clk : Clock) (input : V)
    (metadata : Option (List (String × V))) (P : List (GovernanceStage V)) :
    ∀ (s : RunState V) (r : StageResult V), r ∈ s.stageResults →
      r ∈ (P.foldl (execStage clk input metadata) s).stageResults := by
  induction P with
  | nil => intro s r hr; simpa using hr
  | cons stage P ih =>
      intro s r hr
      rw [List.foldl_cons]
      exact ih _ r (execStage_stageResults_mem clk input metadata s stage r hr)

theorem foldl_execStage_invoked_failed {V : Type} (clk : Clock) (input : V)
    (metadata : Option (List (String × V))) (sid : String) (msg : String)
    (P : List (GovernanceStage V)) :
    ∀ s : RunState V,
      (∀ stage ∈ P, stage.id = sid → ∀ ctx, stage.run ctx = Except.error msg) →
      sid ∈ (P.foldl (execStage clk input metadata) s).invoked →
      sid ∈ s.invoked
      ∨ ∃ r ∈ (P.foldl (execStage clk input metadata) s).stageResults,
          r.stageId = sid ∧ r.status = StageStatus.failed ∧ r.errors = [msg] := by
  induction P with
  | nil =>
      intro s _ hin
      exact Or.inl (by simpa using hin)
  | cons stage P ih =>
      intro s hP hin
      simp only [List.foldl_cons] at hin ⊢
      rcases ih (execStage clk input metadata s stage)
          (fun st hst => hP st (List.mem_cons_of_mem _ hst)) hin with h | h
      · rcases execStage_invoked_cases clk input metadata s stage with hcase | hcase
        · rw [hcase] at h
          exact Or.inl h
        · rw [hcase] at h
          rcases List.mem_append.mp h with h1 | h2
          · exact Or.inl h1
          · have hsid : stage.id = sid := (List.mem_singleton.mp h2).symm
            have hw := hP stage (List.mem_cons_self _ _) hsid
            have hne : (execStage clk input metadata s stage).invoked ≠ s.invoked := by
              rw [hcase]
              simp
            obtain ⟨r, hsnoc, hr1, hr2, hr3⟩ :=
              execStage_const_error clk input metadata s stage msg hw hne
            refine Or.inr ⟨r, ?_, hr1.trans hsid, hr2, hr3⟩
            refine foldl_execStage_results_mono clk input metadata P _ r ?_
            rw [hsnoc]
            exact List.mem_append_right _ (List.mem_singleton.mpr rfl)
      · exact Or.inr h

/-! ### Plan membership (for C3) -/

theorem kahnLoop_mem {V : Type} (stages : List (String × GovernanceStage V))
    (graph : List (String × List String)) (fuel : Nat) :
    ∀ (queue : List String) (inDeg : List (String × Int))
      (ordered : List (GovernanceStage V)) (stage : GovernanceStage V),
      stage ∈ kahnLoop stages graph fuel queue inDeg ordered →
      stage ∈ ordered ∨ ∃ k, mapGet stages k = some stage := by
  induction fuel with
  | zero =>
      intro queue inDeg ordered stage h
      exact Or.inl (by simpa [kahnLoop] using h)
  | succ fuel ih =>
      intro queue inDeg ordered stage h
      cases queue with
      | nil => exact Or.inl (by simpa [kahnLoop] using h)
      | cons id rest =>
          by_cases hid : id = ""
          · rw [kahnLoop, if_pos hid] at h
            exact Or.inl h
          · rw [kahnLoop, if_neg hid] at h
            cases hm : mapGet stages id with
            | none =>
                rw [hm] at h
                exact ih _ _ _ _ h
            | some st =>
                rw [hm] at h
                rcases ih _ _ _ _ h with hord | hk
                · rcases List.mem_append.mp hord with h1 | h2
                  · exact Or.inl h1
                  · exact Or.inr ⟨id, by rw [hm, List.mem_singleton.mp h2]⟩
                · exact Or.inr hk

theorem getExecutionPlan_mem {V : Type} (sm : StageManager V)
    (plan : List (GovernanceStage V)) (h : sm.getExecutionPlan = Except.ok plan)
    (stage : GovernanceStage V) (hst : stage ∈ plan) :
    ∃ k, mapGet sm.stages k = some stage := by
  unfold StageManager.getExecutionPlan at h
  cases hb : sm.stages.foldlM (buildStep sm.stages) ([], []) with
  | error e => rw [hb] at h; simp at h
  | ok built =>
      rw [hb] at h
      simp only [] at h
      by_cases hlen : (kahnLoop sm.stages built.2 sm.stages.length
          ((built.1.filter (fun p => p.2 = 0)).map Prod.fst) built.1 []).length
          = sm.stages.length
      · rw [if_neg (by simpa using hlen)] at h
        have hp : kahnLoop sm.stages built.2 sm.stages.length
            ((built.1.filter (fun p => p.2 = 0)).map Prod.fst) built.1 [] = plan := by
          simpa using h
        rw [← hp] at hst
        rcases kahnLoop_mem sm.stages built.2 sm.stages.length _ _ _ stage hst with h0 | hk
        · simp at h0
        · exact hk
      · rw [if_pos (by simpa using hlen)] at h
        simp at h

/-- C3: a stage whose unit of work throws during `run` does not abort the
run: `run` still returns a RunResult, the recorded result of that stage is
`failed` with a non-empty error list holding the thrown message, the
overall `success` flag is false, and every stage of the plan still gets a
result (the loop continues past the failure).  `hkeys` states the
registry well-formedness that `addStage` establishes (each entry is
keyed by its stage id); the invocation log pins down that the work
of this stage actually ran. -/
theorem C3_thrown_error_contained {V : Type} (clk : Clock) (uuid : String)
    (e : GovernanceEngine V) (input : V) (metadata : Option (List (String × V)))
    (plan : List (GovernanceStage V)) (st : GovernanceStage V) (msg : String)
    (hkeys : ∀ p ∈ e.stageManager.stages, (p.2).id = p.1)
    (hplan : e.stageManager.getExecutionPlan = Except.ok plan)
    (hst : st ∈ plan)
    (hw : ∀ ctx, st.run ctx = Except.error msg)
    (hinv : st.id ∈ (e.run clk uuid input metadata).2.2) :
    ∃ rr, (e.run clk uuid input metadata).1 = Except.ok rr
      ∧ (∃ r ∈ rr.stages, r.stageId = st.id ∧ r.status = StageStatus.failed
            ∧ r.errors = [msg] ∧ r.errors ≠ [])
      ∧ rr.success = false
      ∧ rr.stages.length = plan.length := by
  have hP : ∀ stage ∈ plan, stage.id = st.id → ∀ ctx, stage.run ctx = Except.error msg := by
    intro stage hstage hid ctx
    obtain ⟨k, hk⟩ := getExecutionPlan_mem _ plan hplan stage hstage
    obtain ⟨k', hk'⟩ := getExecutionPlan_mem _ plan hplan st hst
    have h1 : stage.id = k := hkeys (k, stage) (mapGet_mem _ _ _ hk)
    have h2 : st.id = k' := hkeys (k', st) (mapGet_mem _ _ _ hk')
    have hkk : k = k' := by rw [← h1, ← h2, hid]
    subst hkk
    rw [hk] at hk'
    have : stage = st := by injection hk'
    rw [this]
    exact hw ctx
  simp only [GovernanceEngine.run, hplan] at hinv ⊢
  rcases foldl_execStage_invoked_failed clk input metadata st.id msg plan _ hP hinv with
    h0 | ⟨r, hrmem, hr1, hr2, hr3⟩
  · simp at h0
  · refine ⟨_, rfl, ⟨r, hrmem, hr1, hr2, hr3, by rw [hr3]; simp⟩, ?_, ?_⟩
    · simp only []
      rw [List.all_eq_false]
      exact ⟨r, hrmem, by simp [hr2]⟩
    · have hlen := foldl_execStage_length clk input metadata plan
        { results := [], stageResults := [], metrics := e.metricsCollector,
          invoked := [], wallTick := 1, perfTick := 0 }
      simpa using hlen

/-- Witness for C3: in the `fail`/`skip` engine the `fail` stage throws
`boom`; the run still returns a result with `fail` recorded as failed. -/
theorem C3_witness :
    ∃ rr, (engineFailSkip.run clock0 "u1" () none).1 = Except.ok rr
      ∧ (∃ r ∈ rr.stages, r.stageId = stageFail.id ∧ r.status = StageStatus.failed
            ∧ r.errors = ["boom"] ∧ r.errors ≠ [])
      ∧ rr.success = false
      ∧ rr.stages.length = [stageFail, stageSkip].length :=
  C3_thrown_error_contained clock0 "u1" engineFailSkip () none [stageFail, stageSkip]
    stageFail "boom"
    (by
      intro p hp
      simp [engineFailSkip] at hp
      rcases hp with rfl | rfl <;> rfl)
    rfl (by simp) (fun _ => rfl) (by decide)

/-! ### Further map lemmas (for C10) -/

theorem mapGetD_mapSet_self {β : Type _} (m : List (String × β)) (k : String) (v d : β) :
    mapGetD (mapSet m k v) k d = v := by
  simp [mapGetD, mapGet_mapSet_self]

theorem mapGetD_mapSet_ne {β : Type _} (m : List (String × β)) (k k' : String) (v d : β)
    (h : k' ≠ k) : mapGetD (mapSet m k v) k' d = mapGetD m k' d := by
  simp [mapGetD, mapGet_mapSet_ne m k k' v h]

theorem mapHas_iff_mem_keys {β : Type _} (m : List (String × β)) (k : String) :
    mapHas m k = true ↔ k ∈ m.map Prod.fst := by
  induction m with
  | nil => simp [mapHas, mapGet]
  | cons p rest ih =>
      by_cases hp : p.1 = k
      · simp [mapHas, mapGet, hp]
      · simp only [mapHas, mapGet, hp] at ih ⊢
        simp [hp, if_neg hp, ih, Ne.symm hp]

theorem mapSet_keys_of_has {β : Type _} (m : List (String × β)) (k : String) (v : β)
    (h : mapHas m k = true) : (mapSet m k v).map Prod.fst = m.map Prod.fst := by
  induction m with
  | nil => simp [mapHas, mapGet] at h
  | cons p rest ih =>
      by_cases hp : p.1 = k
      · simp [mapSet, hp]
      · simp only [mapHas, mapGet, hp, if_neg hp] at h
        simp [mapSet, hp, ih h, mapHas]

theorem mapSet_keys_of_not_has {β : Type _} (m : List (String × β)) (k : String) (v : β)
    (h : mapHas m k = false) : (mapSet m k v).map Prod.fst = m.map Prod.fst ++ [k] := by
  induction m with
  | nil => simp [mapSet]
  | cons p rest ih =>
      by_cases hp : p.1 = k
      · simp [mapHas, mapGet, hp] at h
      · simp only [mapHas, mapGet, hp, if_neg hp] at h
        simp [mapSet, hp, ih h, mapHas]

theorem mapGet_eq_of_mem_nodup {β : Type _} (m : List (String × β)) (k : String) (v : β)
    (hnd : (m.map Prod.fst).Nodup) (hm : (k, v) ∈ m) : mapGet m k = some v := by
  induction m with
  | nil => simp at hm
  | cons p rest ih =>
      rcases List.mem_cons.mp hm with h | h
      · subst h
        simp [mapGet]
      · have hk : p.1 ≠ k := by
          intro hk
          have hmem : k ∈ rest.map Prod.fst := List.mem_map.mpr ⟨(k, v), h, rfl⟩
          rw [List.map_cons, List.nodup_cons, hk] at hnd
          exact hnd.1 hmem
        have hnd' : (rest.map Prod.fst).Nodup := by
          rw [List.map_cons, List.nodup_cons] at hnd
          exact hnd.2
        simp [mapGet, hk, ih hnd' h]

theorem two_le_length_of_not_nodup {α : Type _} (l : List α) (h : ¬ l.Nodup) :
    2 ≤ l.length := by
  match l with
  | [] => exact absurd List.nodup_nil h
  | [x] => exact absurd (List.nodup_singleton x) h
  | x :: y :: t =>
      simp only [List.length_cons]
      omega

theorem dedup_length_lt_of_not_nodup {α : Type _} [DecidableEq α] (l : List α)
    (h : ¬ l.Nodup) : l.dedup.length < l.length := by
  have hsub : l.dedup.Sublist l := List.dedup_sublist l
  have hle : l.dedup.length ≤ l.length := hsub.length_le
  rcases lt_or_eq_of_le hle with hlt | heq
  · exact hlt
  · exfalso
    apply h
    have : l.dedup = l := hsub.eq_of_length heq
    rw [← this]
    exact List.nodup_dedup l

/-! ### Characterisation of the dependent-decrement fold (for C10) -/

theorem kahnStep_foldl_spec (l : List String) (hl : l.Nodup) :
    ∀ (inDeg : List (String × Int)) (q : List String),
      (∀ y : String,
        mapGetD (l.foldl kahnStep (inDeg, q)).1 y 0
          = mapGetD inDeg y 0 - (if y ∈ l then 1 else 0))
      ∧ (l.foldl kahnStep (inDeg, q)).2
          = q ++ l.filter (fun y => decide (mapGetD inDeg y 0 - 1 = 0)) := by
  induction l with
  | nil => intro inDeg q; simp
  | cons d ds ih =>
      intro inDeg q
      have hd : d ∉ ds := (List.nodup_cons.mp hl).1
      have hds : ds.Nodup := (List.nodup_cons.mp hl).2
      have hstep : kahnStep (inDeg, q) d
          = (mapSet inDeg d (mapGetD inDeg d 0 - 1),
             if mapGetD inDeg d 0 - 1 = 0 then q ++ [d] else q) := rfl
      obtain ⟨ih1, ih2⟩ := ih hds (mapSet inDeg d (mapGetD inDeg d 0 - 1))
        (if mapGetD inDeg d 0 - 1 = 0 then q ++ [d] else q)
      constructor
      · intro y
        rw [List.foldl_cons, hstep, ih1 y]
        by_cases hyd : y = d
        · subst hyd
          rw [mapGetD_mapSet_self]
          simp [hd]
        · rw [mapGetD_mapSet_ne _ _ _ _ _ hyd]
          by_cases hyds : y ∈ ds
          · simp [hyds, hyd]
          · simp [hyds, hyd]
      · rw [List.foldl_cons, hstep, ih2]
        have hfilter : ds.filter
              (fun y => decide (mapGetD (mapSet inDeg d (mapGetD inDeg d 0 - 1)) y 0 - 1 = 0))
            = ds.filter (fun y => decide (mapGetD inDeg y 0 - 1 = 0)) := by
          apply List.filter_congr
          intro y hy
          have hyd : y ≠ d := fun h => hd (h ▸ hy)
          rw [mapGetD_mapSet_ne _ _ _ _ _ hyd]
        rw [hfilter]
        by_cases hcond : mapGetD inDeg d 0 - 1 = 0
        · simp [hcond, List.filter_cons]
        · simp [hcond, List.filter_cons]

/-! ### Characterisation of the dependency fold of `buildStep` (for C10) -/

theorem depStep_foldlM_spec {V : Type} (stages : List (String × GovernanceStage V))
    (id : String) (deps : List String) :
    ∀ (st : List (String × Int) × List (String × List String)) (j : Int),
      (∀ d ∈ deps, mapHas stages d = true) →
      mapGet st.1 id = some j →
      ∃ res, deps.foldlM (depStep stages id) st = Except.ok res
        ∧ res.1.map Prod.fst = st.1.map Prod.fst
        ∧ res.2.map Prod.fst = st.2.map Prod.fst
        ∧ mapGet res.1 id = some (j + deps.length)
        ∧ (∀ k, k ≠ id → mapGet res.1 k = mapGet st.1 k)
        ∧ (∀ d x, x ∈ mapGetD res.2 d [] → x ∈ mapGetD st.2 d [] ∨ (x = id ∧ d ∈ deps))
        ∧ ((∀ d, (mapGetD st.2 d []).Nodup) → ∀ d, (mapGetD res.2 d []).Nodup) := by
  induction deps with
  | nil =>
      intro st j _ hj
      exact ⟨st, rfl, rfl, rfl, by simpa using hj, fun _ _ => rfl,
        fun d x hx => Or.inl hx, fun h => h⟩
  | cons dep ds ih =>
      intro st j hdeps hj
      have hhas := hdeps dep (List.mem_cons_self _ _)
      have hstep : depStep stages id st dep
          = Except.ok (mapSet st.1 id (mapGetD st.1 id 0 + 1),
              match mapGet st.2 dep with
              | some s => mapSet st.2 dep (if id ∈ s then s else s ++ [id])
              | none => st.2) := by
        simp [depStep, hhas]
      set st1 : List (String × Int) := mapSet st.1 id (mapGetD st.1 id 0 + 1) with hst1
      set g1 : List (String × List String) :=
        (match mapGet st.2 dep with
         | some s => mapSet st.2 dep (if id ∈ s then s else s ++ [id])
         | none => st.2) with hg1
      have hjd : mapGetD st.1 id 0 = j := by simp [mapGetD, hj]
      have hj1 : mapGet st1 id = some (j + 1) := by
        rw [hst1, hjd, mapGet_mapSet_self]
      have hkeys1 : st1.map Prod.fst = st.1.map Prod.fst := by
        rw [hst1]
        exact mapSet_keys_of_has _ _ _ (by simp [mapHas, hj])
      have hkeysg : g1.map Prod.fst = st.2.map Prod.fst := by
        rw [hg1]
        cases hget : mapGet st.2 dep with
        | none => rfl
        | some s =>
            exact mapSet_keys_of_has _ _ _ (by simp [mapHas, hget])
      have hframe1 : ∀ k, k ≠ id → mapGet st1 k = mapGet st.1 k := by
        intro k hk
        rw [hst1]
        exact mapGet_mapSet_ne _ _ _ _ hk
      have hmemg : ∀ d x, x ∈ mapGetD g1 d [] →
          x ∈ mapGetD st.2 d [] ∨ (x = id ∧ d = dep) := by
        intro d x hx
        rw [hg1] at hx
        cases hget : mapGet st.2 dep with
        | none => rw [hget] at hx; exact Or.inl hx
        | some s =>
            rw [hget] at hx
            by_cases hd : d = dep
            · subst hd
              rw [mapGetD_mapSet_self] at hx
              have hsd : mapGetD st.2 d [] = s := by simp [mapGetD, hget]
              by_cases hid : id ∈ s
              · rw [if_pos hid] at hx
                exact Or.inl (by rw [hsd]; exact hx)
              · rw [if_neg hid] at hx
                rcases List.mem_append.mp hx with h1 | h2
                · exact Or.inl (by rw [hsd]; exact h1)
                · exact Or.inr ⟨List.mem_singleton.mp h2, rfl⟩
            · rw [mapGetD_mapSet_ne _ _ _ _ _ hd] at hx
              exact Or.inl hx
      have hndg : (∀ d, (mapGetD st.2 d []).Nodup) → ∀ d, (mapGetD g1 d []).Nodup := by
        intro hnd d
        rw [hg1]
        cases hget : mapGet st.2 dep with
        | none => exact hnd d
        | some s =>
            by_cases hd : d = dep
            · subst hd
              rw [mapGetD_mapSet_self]
              have hsd : mapGetD st.2 d [] = s := by simp [mapGetD, hget]
              by_cases hid : id ∈ s
              · rw [if_pos hid, ← hsd]
                exact hnd d
              · rw [if_neg hid]
                have hs : s.Nodup := by rw [← hsd]; exact hnd d
                simp [List.nodup_append, hs, hid]
            · rw [mapGetD_mapSet_ne _ _ _ _ _ hd]
              exact hnd d
      obtain ⟨res, hres, hr1, hr2, hr3, hr4, hr5, hr6⟩ :=
        ih (st1, g1) (j + 1) (fun d hd => hdeps d (List.mem_cons_of_mem _ hd)) hj1
      refine ⟨res, ?_, ?_, ?_, ?_, ?_, ?_, ?_⟩
      · rw [List.foldlM_cons, hstep]
        simpa using hres
      · rw [hr1]
        exact hkeys1
      · rw [hr2]
        exact hkeysg
      · rw [hr3]
        congr 1
        simp only [List.length_cons]
        push_cast
        ring
      · intro k hk
        rw [hr4 k hk]
        exact hframe1 k hk
      · intro d x hx
        rcases hr5 d x hx with h1 | h2
        · rcases hmemg d x h1 with h3 | h4
          · exact Or.inl h3
          · exact Or.inr ⟨h4.1, by rw [h4.2]; exact List.mem_cons_self _ _⟩
        · exact Or.inr ⟨h2.1, List.mem_cons_of_mem _ h2.2⟩
      · intro hnd
        exact hr6 (hndg hnd)

theorem buildStep_spec {V : Type} (stages : List (String × GovernanceStage V))
    (acc : List (String × Int) × List (String × List String))
    (entry : String × GovernanceStage V)
    (hdeps : ∀ d ∈ entry.2.dependencies, mapHas stages d = true)
    (hnotin : mapHas acc.1 entry.1 = false) (hnoting : mapHas acc.2 entry.1 = false) :
    ∃ res, buildStep stages acc entry = Except.ok res
      ∧ res.1.map Prod.fst = acc.1.map Prod.fst ++ [entry.1]
      ∧ res.2.map Prod.fst = acc.2.map Prod.fst ++ [entry.1]
      ∧ mapGet res.1 entry.1 = some (entry.2.dependencies.length)
      ∧ (∀ k, k ≠ entry.1 → mapGet res.1 k = mapGet acc.1 k)
      ∧ (∀ d x, x ∈ mapGetD res.2 d [] →
          x ∈ mapGetD acc.2 d [] ∨ (x = entry.1 ∧ d ∈ entry.2.dependencies))
      ∧ ((∀ d, (mapGetD acc.2 d []).Nodup) → ∀ d, (mapGetD res.2 d []).Nodup) := by
  obtain ⟨res, h0, h1, h2, h3, h4, h5, h6⟩ :=
    depStep_foldlM_spec stages entry.1 entry.2.dependencies
      (mapSet acc.1 entry.1 0, mapSet acc.2 entry.1 []) 0 hdeps
      (by simp [mapGet_mapSet_self])
  refine ⟨res, ?_, ?_, ?_, ?_, ?_, ?_, ?_⟩
  · simpa [buildStep] using h0
  · rw [h1]
    exact mapSet_keys_of_not_has _ _ _ hnotin
  · rw [h2]
    exact mapSet_keys_of_not_has _ _ _ hnoting
  · rw [h3]
    simp
  · intro k hk
    rw [h4 k hk]
    exact mapGet_mapSet_ne _ _ _ _ hk
  · intro d x hx
    rcases h5 d x hx with h | h
    · by_cases hd : d = entry.1
      · subst hd
        rw [mapGetD_mapSet_self] at h
        simp at h
      · rw [mapGetD_mapSet_ne _ _ _ _ _ hd] at h
        exact Or.inl h
    · exact Or.inr h
  · intro hnd
    apply h6
    intro d
    by_cases hd : d = entry.1
    · subst hd
      rw [mapGetD_mapSet_self]
      exact List.nodup_nil
    · rw [mapGetD_mapSet_ne _ _ _ _ _ hd]
      exact hnd d

theorem build_foldlM_spec {V : Type} (stages : List (String × GovernanceStage V))
    (L : List (String × GovernanceStage V)) :
    ∀ acc : List (String × Int) × List (String × List String),
      (∀ q ∈ L, ∀ d ∈ q.2.dependencies, mapHas stages d = true) →
      acc.1.map Prod.fst = acc.2.map Prod.fst →
      (acc.1.map Prod.fst ++ L.map Prod.fst).Nodup →
      ∃ res, L.foldlM (buildStep stages) acc = Except.ok res
        ∧ res.1.map Prod.fst = acc.1.map Prod.fst ++ L.map Prod.fst
        ∧ res.2.map Prod.fst = acc.2.map Prod.fst ++ L.map Prod.fst
        ∧ (∀ q ∈ L, mapGet res.1 q.1 = some (q.2.dependencies.length))
        ∧ (∀ k, k ∈ acc.1.map Prod.fst → mapGet res.1 k = mapGet acc.1 k)
        ∧ (∀ d x, x ∈ mapGetD res.2 d [] →
            x ∈ mapGetD acc.2 d [] ∨ ∃ q ∈ L, q.1 = x ∧ d ∈ q.2.dependencies)
        ∧ ((∀ d, (mapGetD acc.2 d []).Nodup) → ∀ d, (mapGetD res.2 d []).Nodup) := by
  induction L with
  | nil =>
      intro acc _ _ _
      exact ⟨acc, rfl, by simp, by simp, by simp, fun _ _ => rfl,
        fun d x hx => Or.inl hx, fun h => h⟩
  | cons q L ih =>
      intro acc hdeps hacckeys hnd
      have hq1 : q.1 ∉ acc.1.map Prod.fst := by
        intro hmem
        rw [List.map_cons] at hnd
        have := (List.nodup_append.mp hnd).2.2
        exact this hmem (List.mem_cons_self _ _)
      have hnotin : mapHas acc.1 q.1 = false := by
        rw [Bool.eq_false_iff]
        intro h
        exact hq1 ((mapHas_iff_mem_keys _ _).mp h)
      have hnoting : mapHas acc.2 q.1 = false := by
        rw [Bool.eq_false_iff]
        intro h
        exact hq1 (by rw [hacckeys]; exact (mapHas_iff_mem_keys _ _).mp h)
      obtain ⟨res1, hb0, hb1, hb2, hb3, hb4, hb5, hb6⟩ :=
        buildStep_spec stages acc q (hdeps q (List.mem_cons_self _ _)) hnotin hnoting
      have hkeys1 : res1.1.map Prod.fst = res1.2.map Prod.fst := by
        rw [hb1, hb2, hacckeys]
      have hnd1 : (res1.1.map Prod.fst ++ L.map Prod.fst).Nodup := by
        rw [hb1, List.append_assoc, List.singleton_append]
        rw [List.map_cons] at hnd
        exact hnd
      obtain ⟨res, hf0, hf1, hf2, hf3, hf4, hf5, hf6⟩ :=
        ih res1 (fun q' hq' => hdeps q' (List.mem_cons_of_mem _ hq')) hkeys1 hnd1
      refine ⟨res, ?_, ?_, ?_, ?_, ?_, ?_, ?_⟩
      · rw [List.foldlM_cons, hb0]
        simpa using hf0
      · rw [hf1, hb1, List.map_cons, List.append_assoc, List.singleton_append]
      · rw [hf2, hb2, List.map_cons, List.append_assoc, List.singleton_append]
      · intro q' hq'
        rcases List.mem_cons.mp hq' with h | h
        · subst h
          have hqin : q'.1 ∈ res1.1.map Prod.fst := by
            rw [hb1]
            exact List.mem_append_right _ (List.mem_singleton.mpr rfl)
          rw [hf4 q'.1 hqin]
          exact hb3
        · exact hf3 q' h
      · intro k hk
        have hkin : k ∈ res1.1.map Prod.fst := by
          rw [hb1]
          exact List.mem_append_left _ hk
        rw [hf4 k hkin]
        exact hb4 k (fun h => hq1 (h ▸ hk))
      · intro d x hx
        rcases hf5 d x hx with h | ⟨q', hq', hqx, hqd⟩
        · rcases hb5 d x h with h1 | h2
          · exact Or.inl h1
          · exact Or.inr ⟨q, List.mem_cons_self _ _, h2.1.symm, h2.2⟩
        · exact Or.inr ⟨q', List.mem_cons_of_mem _ hq', hqx, hqd⟩
      · intro hnda
        exact hf6 (hb6 hnda)

theorem length_lt_of_missing (popped R : List String) (hnd : popped.Nodup)
    (hRnd : R.Nodup) (hsub : ∀ y ∈ popped, y ∈ R) (sid : String)
    (hsidR : sid ∈ R) (hsid : sid ∉ popped) : popped.length < R.length := by
  classical
  have h1 : popped.toFinset.card = popped.length := List.toFinset_card_of_nodup hnd
  have h2 : R.toFinset.card = R.length := List.toFinset_card_of_nodup hRnd
  have hsubF : popped.toFinset ⊆ R.toFinset.erase sid := by
    intro y hy
    rw [List.mem_toFinset] at hy
    refine Finset.mem_erase.mpr ⟨fun h => hsid (h ▸ hy), List.mem_toFinset.mpr (hsub y hy)⟩
  have hle := Finset.card_le_card hsubF
  have hcard : (R.toFinset.erase sid).card = R.toFinset.card - 1 :=
    Finset.card_erase_of_mem (List.mem_toFinset.mpr hsidR)
  have hpos : 0 < R.toFinset.card :=
    Finset.card_pos.mpr ⟨sid, List.mem_toFinset.mpr hsidR⟩
  omega

/-- The Kahn loop invariant for C10: a stage `sid` whose in-degree
always exceeds the number of graph edges still able to decrement it is
never enqueued, so the loop result misses at least one registered id. -/
theorem kahnLoop_stuck {V : Type} (stages : List (String × GovernanceStage V))
    (graph0 : List (String × List String)) (R : List String)
    (hRnd : R.Nodup)
    (hGnd : ∀ d, (mapGetD graph0 d []).Nodup)
    (hGR : ∀ d x, x ∈ mapGetD graph0 d [] → x ∈ R)
    (sid : String) (hsidR : sid ∈ R) :
    ∀ (fuel : Nat) (queue : List String) (inDeg : List (String × Int))
      (ordered : List (GovernanceStage V)) (popped : List String),
      (popped ++ queue).Nodup →
      (∀ y ∈ popped ++ queue, y ∈ R) →
      (∀ y ∈ popped ++ queue, mapGetD inDeg y 0 ≤ 0) →
      sid ∉ popped ++ queue →
      ((R.toFinset.filter (fun d => sid ∈ mapGetD graph0 d [] ∧ d ∉ popped)).card : Int) + 1
          ≤ mapGetD inDeg sid 0 →
      ordered.length ≤ popped.length →
      (kahnLoop stages graph0 fuel queue inDeg ordered).length < R.length := by
  classical
  intro fuel
  induction fuel with
  | zero =>
      intro queue inDeg ordered popped h1 h2 h3 h4 h5 h6
      have hord : kahnLoop stages graph0 0 queue inDeg ordered = ordered := by
        rw [kahnLoop]
      rw [hord]
      refine lt_of_le_of_lt h6 (length_lt_of_missing popped R
        (List.nodup_append.mp h1).1 hRnd
        (fun y hy => h2 y (List.mem_append_left _ hy)) sid hsidR
        (fun hy => h4 (List.mem_append_left _ hy)))
  | succ fuel ih =>
      intro queue inDeg ordered popped h1 h2 h3 h4 h5 h6
      have hexit : ordered.length < R.length :=
        lt_of_le_of_lt h6 (length_lt_of_missing popped R
          (List.nodup_append.mp h1).1 hRnd
          (fun y hy => h2 y (List.mem_append_left _ hy)) sid hsidR
          (fun hy => h4 (List.mem_append_left _ hy)))
      cases queue with
      | nil =>
          have hord : kahnLoop stages graph0 (fuel + 1) [] inDeg ordered = ordered := by
            rw [kahnLoop]
          rw [hord]
          exact hexit
      | cons x rest =>
          by_cases hx : x = ""
          · have hord : kahnLoop stages graph0 (fuel + 1) (x :: rest) inDeg ordered
                = ordered := by
              rw [kahnLoop, if_pos hx]
            rw [hord]
            exact hexit
          · -- pop x
            have hxmem : x ∈ popped ++ x :: rest :=
              List.mem_append_right _ (List.mem_cons_self _ _)
            have hxR : x ∈ R := h2 x hxmem
            have hnd_parts := List.nodup_append.mp h1
            have hxnp : x ∉ popped := fun hmem =>
              hnd_parts.2.2 hmem (List.mem_cons_self _ _)
            have hrest_nd : rest.Nodup := (List.nodup_cons.mp hnd_parts.2.1).2
            have hxnr : x ∉ rest := (List.nodup_cons.mp hnd_parts.2.1).1
            set l := mapGetD graph0 x [] with hldef
            obtain ⟨hs1, hs2⟩ := kahnStep_foldl_spec l (hGnd x) inDeg rest
            set lF := l.filter (fun y => decide (mapGetD inDeg y 0 - 1 = 0)) with hlFdef
            have hlF_mem : ∀ y ∈ lF, y ∈ l ∧ mapGetD inDeg y 0 = 1 := by
              intro y hy
              rw [hlFdef, List.mem_filter] at hy
              refine ⟨hy.1, ?_⟩
              have := of_decide_eq_true hy.2
              omega
            have hlF_fresh : ∀ y ∈ lF, y ∉ popped ++ x :: rest := by
              intro y hy hmem
              have := h3 y hmem
              have := (hlF_mem y hy).2
              omega
            have hord : kahnLoop stages graph0 (fuel + 1) (x :: rest) inDeg ordered
                = kahnLoop stages graph0 fuel (l.foldl kahnStep (inDeg, rest)).2
                    (l.foldl kahnStep (inDeg, rest)).1
                    (match mapGet stages x with
                     | some stage => ordered ++ [stage]
                     | none => ordered) := by
              rw [kahnLoop, if_neg hx]
            rw [hord, hs2]
            -- invariant for the recursive call
            have hA : popped ++ [x] ++ rest = popped ++ x :: rest := by
              rw [List.append_assoc, List.singleton_append]
            have inv1 : ((popped ++ [x]) ++ (rest ++ lF)).Nodup := by
              rw [← List.append_assoc, hA]
              refine List.Nodup.append h1 ?_ ?_
              · exact List.Nodup.filter _ (hGnd x)
              · intro a ha hb
                exact hlF_fresh a hb ha
            have inv2 : ∀ y ∈ (popped ++ [x]) ++ (rest ++ lF), y ∈ R := by
              intro y hy
              rcases List.mem_append.mp hy with hy1 | hy2
              · rcases List.mem_append.mp hy1 with hy3 | hy4
                · exact h2 y (List.mem_append_left _ hy3)
                · rw [List.mem_singleton.mp hy4]
                  exact hxR
              · rcases List.mem_append.mp hy2 with hy3 | hy4
                · exact h2 y (List.mem_append_right _ (List.mem_cons_of_mem _ hy3))
                · exact hGR x y (hlF_mem y hy4).1
            have inv3 : ∀ y ∈ (popped ++ [x]) ++ (rest ++ lF),
                mapGetD (l.foldl kahnStep (inDeg, rest)).1 y 0 ≤ 0 := by
              intro y hy
              rw [hs1 y]
              rcases List.mem_append.mp hy with hy1 | hy2
              · have hmem : y ∈ popped ++ x :: rest := by
                  rw [← hA]
                  exact List.mem_append_left _ hy1
                have := h3 y hmem
                by_cases hyl : y ∈ l <;> simp [hyl] <;> omega
              · rcases List.mem_append.mp hy2 with hy3 | hy4
                · have hmem : y ∈ popped ++ x :: rest :=
                    List.mem_append_right _ (List.mem_cons_of_mem _ hy3)
                  have := h3 y hmem
                  by_cases hyl : y ∈ l <;> simp [hyl] <;> omega
                · obtain ⟨hyl, hdeg⟩ := hlF_mem y hy4
                  simp [hyl]
                  omega
            have inv4 : sid ∉ (popped ++ [x]) ++ (rest ++ lF) := by
              intro hy
              rcases List.mem_append.mp hy with hy1 | hy2
              · apply h4
                rw [← hA]
                exact List.mem_append_left _ hy1
              · rcases List.mem_append.mp hy2 with hy3 | hy4
                · exact h4 (List.mem_append_right _ (List.mem_cons_of_mem _ hy3))
                · -- sid ∈ lF would give in-degree 1, but the count bound forces ≥ 2
                  obtain ⟨hyl, hdeg⟩ := hlF_mem sid hy4
                  have hxS : x ∈ R.toFinset.filter
                      (fun d => sid ∈ mapGetD graph0 d [] ∧ d ∉ popped) := by
                    refine Finset.mem_filter.mpr ⟨List.mem_toFinset.mpr hxR, ?_, hxnp⟩
                    rw [← hldef]
                    exact hyl
                  have hpos : 0 < (R.toFinset.filter
                      (fun d => sid ∈ mapGetD graph0 d [] ∧ d ∉ popped)).card :=
                    Finset.card_pos.mpr ⟨x, hxS⟩
                  omega
            have hS' : R.toFinset.filter
                (fun d => sid ∈ mapGetD graph0 d [] ∧ d ∉ popped ++ [x])
                = (R.toFinset.filter
                    (fun d => sid ∈ mapGetD graph0 d [] ∧ d ∉ popped)).erase x := by
              ext d
              simp only [Finset.mem_filter, Finset.mem_erase, List.mem_append,
                List.mem_singleton]
              constructor
              · rintro ⟨hdR, hdg, hdp⟩
                push_neg at hdp
                exact ⟨hdp.2, hdR, hdg, hdp.1⟩
              · rintro ⟨hdx, hdR, hdg, hdp⟩
                refine ⟨hdR, hdg, ?_⟩
                push_neg
                exact ⟨hdp, hdx⟩
            have inv5 : ((R.toFinset.filter
                (fun d => sid ∈ mapGetD graph0 d [] ∧ d ∉ popped ++ [x])).card : Int) + 1
                ≤ mapGetD (l.foldl kahnStep (inDeg, rest)).1 sid 0 := by
              rw [hs1 sid, hS']
              by_cases hsl : sid ∈ l
              · have hxS : x ∈ R.toFinset.filter
                    (fun d => sid ∈ mapGetD graph0 d [] ∧ d ∉ popped) := by
                  refine Finset.mem_filter.mpr ⟨List.mem_toFinset.mpr hxR, ?_, hxnp⟩
                  rw [← hldef]
                  exact hsl
                have hcard := Finset.card_erase_of_mem hxS
                have hpos : 0 < (R.toFinset.filter
                    (fun d => sid ∈ mapGetD graph0 d [] ∧ d ∉ popped)).card :=
                  Finset.card_pos.mpr ⟨x, hxS⟩
                rw [if_pos hsl]
                omega
              · have hxS : x ∉ R.toFinset.filter
                    (fun d => sid ∈ mapGetD graph0 d [] ∧ d ∉ popped) := by
                  intro hmem
                  apply hsl
                  rw [hldef]
                  exact (Finset.mem_filter.mp hmem).2.1
                rw [Finset.erase_eq_of_not_mem hxS, if_neg hsl]
                omega
            have inv6 : (match mapGet stages x with
                | some stage => ordered ++ [stage]
                | none => ordered).length ≤ (popped ++ [x]).length := by
              cases hm : mapGet stages x with
              | some stage => simp; omega
              | none => simp; omega
            exact ih (rest ++ lF) (l.foldl kahnStep (inDeg, rest)).1 _ (popped ++ [x])
              inv1 inv2 inv3 inv4 inv5 inv6

theorem getExecutionPlan_eq_of_build {V : Type} (sm : StageManager V)
    (built : List (String × Int) × List (String × List String))
    (hb : sm.stages.foldlM (buildStep sm.stages) ([], []) = Except.ok built) :
    sm.getExecutionPlan =
      (if (kahnLoop sm.stages built.2 sm.stages.length
            ((built.1.filter (fun p => p.2 = 0)).map Prod.fst) built.1 []).length
          ≠ sm.stages.length then
        Except.error "Stage dependency cycle detected"
      else
        Except.ok (kahnLoop sm.stages built.2 sm.stages.length
          ((built.1.filter (fun p => p.2 = 0)).map Prod.fst) built.1 [])) := by
  unfold StageManager.getExecutionPlan
  rw [hb]

/-- C10: duplicating a dependency id in the dependency list of a stage makes
`getExecutionPlan` throw the cycle error even though the dependency
graph is acyclic: every duplicate occurrence increments the in-degree,
but the dependent edge lives in a `Set`, so the in-degree is decremented
at most once per distinct dependency and the stage can never reach
in-degree zero.  Hypotheses: the registry is well formed (unique keys,
as `addStage` guarantees) and every declared dependency is registered
(otherwise the missing-dependency error fires first). -/
theorem C10_duplicate_dependency_cycle_error {V : Type} (sm : StageManager V)
    (hnd : (sm.stages.map Prod.fst).Nodup)
    (hreg : ∀ q ∈ sm.stages, ∀ d ∈ (q.2).dependencies, mapHas sm.stages d = true)
    (p : String × GovernanceStage V) (hp : p ∈ sm.stages)
    (hdup : ¬ (p.2).dependencies.Nodup) :
    sm.getExecutionPlan = Except.error "Stage dependency cycle detected" := by
  classical
  obtain ⟨built, hb0, hb1, hb2, hb3, hb4, hb5, hb6⟩ :=
    build_foldlM_spec sm.stages sm.stages ([], []) hreg rfl (by simpa using hnd)
  have hkeys1 : built.1.map Prod.fst = sm.stages.map Prod.fst := by simpa using hb1
  have hGnd : ∀ d, (mapGetD built.2 d []).Nodup := by
    apply hb6
    intro d
    simp [mapGetD, mapGet]
  have hGmem : ∀ d x, x ∈ mapGetD built.2 d [] →
      ∃ q ∈ sm.stages, q.1 = x ∧ d ∈ (q.2).dependencies := by
    intro d x hx
    rcases hb5 d x hx with h | h
    · simp [mapGetD, mapGet] at h
    · exact h
  have hGR : ∀ d x, x ∈ mapGetD built.2 d [] → x ∈ sm.stages.map Prod.fst := by
    intro d x hx
    obtain ⟨q, hq, hqx, _⟩ := hGmem d x hx
    exact hqx ▸ List.mem_map.mpr ⟨q, hq, rfl⟩
  have hsidR : p.1 ∈ sm.stages.map Prod.fst := List.mem_map.mpr ⟨p, hp, rfl⟩
  have hdegp : mapGet built.1 p.1 = some ((p.2).dependencies.length) := hb3 p hp
  have hdeg : mapGetD built.1 p.1 0 = ((p.2).dependencies.length : Int) := by
    simp [mapGetD, hdegp]
  have hnd1 : (built.1.map Prod.fst).Nodup := by rw [hkeys1]; exact hnd
  have hseeds_sub : ((built.1.filter (fun q => q.2 = 0)).map Prod.fst).Sublist
      (sm.stages.map Prod.fst) := by
    rw [← hkeys1]
    exact (List.filter_sublist _).map _
  have hseeds_nd : ((built.1.filter (fun q => q.2 = 0)).map Prod.fst).Nodup :=
    List.Nodup.sublist hseeds_sub hnd
  have hseeds_R : ∀ y ∈ (built.1.filter (fun q => q.2 = 0)).map Prod.fst,
      y ∈ sm.stages.map Prod.fst := fun y hy => hseeds_sub.subset hy
  have hseeds_deg : ∀ y ∈ (built.1.filter (fun q => q.2 = 0)).map Prod.fst,
      mapGetD built.1 y 0 ≤ 0 := by
    intro y hy
    obtain ⟨⟨k, v⟩, hmem, heq⟩ := List.mem_map.mp hy
    rw [List.mem_filter] at hmem
    have hv : v = 0 := by simpa using hmem.2
    have hget : mapGet built.1 k = some v := mapGet_eq_of_mem_nodup _ _ _ hnd1 hmem.1
    have hky : k = y := heq
    rw [← hky]
    simp [mapGetD, hget, hv]
  have hdup2 : 2 ≤ (p.2).dependencies.length := two_le_length_of_not_nodup _ hdup
  have hsid_seeds : p.1 ∉ (built.1.filter (fun q => q.2 = 0)).map Prod.fst := by
    intro hmem
    have hle := hseeds_deg p.1 hmem
    rw [hdeg] at hle
    have : (2 : Int) ≤ ((p.2).dependencies.length : Int) := by exact_mod_cast hdup2
    omega
  have hqp_unique : ∀ q ∈ sm.stages, q.1 = p.1 → q = p := by
    intro q hq hqp
    have h1 : mapGet sm.stages q.1 = some q.2 := mapGet_eq_of_mem_nodup _ _ _ hnd hq
    have h2 : mapGet sm.stages p.1 = some p.2 := mapGet_eq_of_mem_nodup _ _ _ hnd hp
    rw [hqp] at h1
    rw [h1] at h2
    have hsnd : q.2 = p.2 := by injection h2
    have : q = (q.1, q.2) := rfl
    rw [this, hqp, hsnd]
  have hcount : (((sm.stages.map Prod.fst).toFinset.filter
      (fun d => p.1 ∈ mapGetD built.2 d [] ∧ d ∉ ([] : List String))).card : Int) + 1
      ≤ mapGetD built.1 p.1 0 := by
    have hsub : (sm.stages.map Prod.fst).toFinset.filter
        (fun d => p.1 ∈ mapGetD built.2 d [] ∧ d ∉ ([] : List String))
        ⊆ (p.2).dependencies.toFinset := by
      intro d hd
      rw [Finset.mem_filter] at hd
      obtain ⟨q, hq, hqx, hqd⟩ := hGmem d p.1 hd.2.1
      rw [hqp_unique q hq hqx] at hqd
      exact List.mem_toFinset.mpr hqd
    have hcard1 := Finset.card_le_card hsub
    have hcard2 : (p.2).dependencies.toFinset.card = (p.2).dependencies.dedup.length :=
      List.card_toFinset _
    have hded := dedup_length_lt_of_not_nodup (p.2).dependencies hdup
    rw [hdeg]
    omega
  have hloop := kahnLoop_stuck sm.stages built.2 (sm.stages.map Prod.fst) hnd hGnd hGR
    p.1 hsidR sm.stages.length ((built.1.filter (fun q => q.2 = 0)).map Prod.fst)
    built.1 [] []
    (by simpa using hseeds_nd)
    (by simpa using hseeds_R)
    (by simpa using hseeds_deg)
    (by simpa using hsid_seeds)
    hcount
    (by simp)
  rw [getExecutionPlan_eq_of_build sm built hb0]
  rw [if_pos]
  have hlenR : (sm.stages.map Prod.fst).length = sm.stages.length := by simp
  rw [hlenR] at hloop
  omega

/-- Witness for C10: the registry `[a, b]` where `b` lists `a` twice is
acyclic with every dependency registered, yet the plan throws the cycle
error. -/
theorem C10_witness :
    (⟨[("a", stageA), ("b", stageBdup)]⟩ : StageManager Unit).getExecutionPlan
      = Except.error "Stage dependency cycle detected" :=
  C10_duplicate_dependency_cycle_error ⟨[("a", stageA), ("b", stageBdup)]⟩
    (by decide)
    (by
      intro q hq
      simp [stageA, stageBdup] at hq
      rcases hq with rfl | rfl
      · intro d hd
        simp at hd
      · intro d hd
        simp at hd
        subst hd
        decide)
    ("b", stageBdup)
    (by simp)
    (by decide)

end DAX
